import Mathlib

/-!
# Verification of the BRC20 read-only database layer (`src/okx/brc20_db/read_only.rs`)

Shallow embedding of the ledger read layer: a `BRC20DatabaseReader` wraps either a
read-only (`Rtx`) or a read-write (`Wtx`) transaction, opens named tables, and answers
queries by point-gets and lexicographic range scans over composite keys, decoding the
stored binary records.

Keys and stored values are byte sequences, modelled as `List Nat` with every byte below
256, compared in the byte-lexicographic order that the storage engine (`redb`, with
string keys) uses.  A table is modelled as an association list of (key, value-bytes)
pairs, sorted strictly ascending by key; the two transaction variants each carry a map
from table names to such tables.

The Rust code panics (`.unwrap()`) when stored bytes fail to decode; that outcome is
modelled as the distinguished result `RunError.panicked`, kept separate from
`RunError.tableError` (a table that cannot be opened).
-/

namespace BRC20Read

/-- Byte-lexicographic strict order on byte strings, as used by the storage engine
for string keys. -/
def keyLt : List Nat → List Nat → Bool
  | [], [] => false
  | [], _ :: _ => true
  | _ :: _, [] => false
  | a :: as, b :: bs => decide (a < b) || (a == b && keyLt as bs)

/-- Non-strict byte-lexicographic order. -/
def keyLe (a b : List Nat) : Bool := keyLt a b || a == b

/-- Membership of a key in a half-open key range: lower bound inclusive,
upper bound exclusive (the Rust `lo..hi` range convention). -/
def inRangeB (lo hi k : List Nat) : Bool := keyLe lo k && keyLt k hi

/-- Modelled from the spec (§4.3 Key Codec; the key-building helpers live outside
`read_only.rs`): the byte separating the owner encoding from the ticker encoding. -/
def sepByte : Nat := 0

/-- Lowercase normalization of one ASCII byte: `A`..`Z` map to `a`..`z`,
every other byte is unchanged.  Models `Tick::to_lowercase` byte-wise. -/
def lowerByte (b : Nat) : Nat := if 65 ≤ b ∧ b ≤ 90 then b + 32 else b

/-- One hex digit (`0`..`9`, `a`..`f`) as its ASCII byte. -/
def hexDigit (n : Nat) : Nat := if n < 10 then 48 + n else 87 + n

/-- Hex encoding of a byte string: each byte becomes two lowercase hex digit bytes.
Models `hex()` on a ticker's bytes. -/
def hexBytes : List Nat → List Nat
  | [] => []
  | b :: rest => hexDigit (b / 16) :: hexDigit (b % 16) :: hexBytes rest

/-- Modelled from the spec (§3, §4.3): the canonical lowercase-normalized encoding of
a ticker used as a key-building input: the lowercase hex of its bytes. -/
def tickEncode (t : List Nat) : List Nat := hexBytes (t.map lowerByte)

/-- Modelled from the spec (§4.3): `pointKey(owner, ticker)`, the composite key
`encode(owner) ++ SEPARATOR ++ encode(ticker)`. -/
def script_tick_key (s t : List Nat) : List Nat := s ++ sepByte :: tickEncode t

/-- Modelled from the spec (§4.3): `MIN_TICKER_SENTINEL`, a fixed-width value sorting
at or below every legitimately-encoded ticker (hex digits are bytes ≥ 48 > 0). -/
def minTickSentinel : List Nat := List.replicate 8 0

/-- Modelled from the spec (§4.3): `MAX_TICKER_SENTINEL`, a fixed-width value sorting
strictly above every legitimately-encoded ticker (hex digits are bytes ≤ 102 < 255). -/
def maxTickSentinel : List Nat := List.replicate 8 255

/-- Modelled from the spec (§4.3): `lowerBound(owner)`. -/
def min_script_tick_key (s : List Nat) : List Nat := s ++ sepByte :: minTickSentinel

/-- Modelled from the spec (§4.3): `upperBound(owner)`. -/
def max_script_tick_key (s : List Nat) : List Nat := s ++ sepByte :: maxTickSentinel

/-- A well-formed owner (script key) encoding: bytes below 256, none equal to the
separator byte (the spec's key-building convention that makes owner ranges disjoint). -/
def scriptKeyValidB (s : List Nat) : Bool := s.all fun b => decide (b ≠ sepByte) && decide (b < 256)

/-- A well-formed ticker: the fixed-form four-byte identifier (§3), bytes below 256. -/
def tickValidB (t : List Nat) : Bool := (t.length == 4) && t.all fun b => decide (b < 256)

/-! ## Basic facts about the key order -/

theorem keyLt_irrefl (a : List Nat) : keyLt a a = false := by
  induction a with
  | nil => rfl
  | cons x xs ih => simp [keyLt, ih]

theorem keyLt_asymm {a b : List Nat} (h : keyLt a b = true) : keyLt b a = false := by
  induction a generalizing b with
  | nil =>
    cases b with
    | nil => simp [keyLt] at h
    | cons y ys => rfl
  | cons x xs ih =>
    cases b with
    | nil => simp [keyLt] at h
    | cons y ys =>
      simp only [keyLt, Bool.or_eq_true, Bool.and_eq_true, decide_eq_true_eq, beq_iff_eq] at h ⊢
      rcases h with h | ⟨rfl, h⟩
      · simp only [Bool.or_eq_false_iff, Bool.and_eq_false_iff]
        exact ⟨by simp; omega, Or.inl (by simp; omega)⟩
      · simp [keyLt_irrefl, ih h]

theorem keyLt_trans {a b c : List Nat} (h1 : keyLt a b = true) (h2 : keyLt b c = true) :
    keyLt a c = true := by
  induction a generalizing b c with
  | nil =>
    cases b with
    | nil => simp [keyLt] at h1
    | cons y ys =>
      cases c with
      | nil => simp [keyLt] at h2
      | cons z zs => rfl
  | cons x xs ih =>
    cases b with
    | nil => simp [keyLt] at h1
    | cons y ys =>
      cases c with
      | nil => simp [keyLt] at h2
      | cons z zs =>
        simp only [keyLt, Bool.or_eq_true, Bool.and_eq_true, decide_eq_true_eq,
          beq_iff_eq] at h1 h2 ⊢
        rcases h1 with h1 | ⟨rfl, h1⟩
        · rcases h2 with h2 | ⟨rfl, h2⟩
          · exact Or.inl (Nat.lt_trans h1 h2)
          · exact Or.inl h1
        · rcases h2 with h2 | ⟨rfl, h2⟩
          · exact Or.inl h2
          · exact Or.inr ⟨rfl, ih h1 h2⟩

theorem keyLt_append_left (l a b : List Nat) : keyLt (l ++ a) (l ++ b) = keyLt a b := by
  induction l with
  | nil => rfl
  | cons x xs ih => simp [keyLt, ih]

theorem keyLt_cons_same (x : Nat) (a b : List Nat) :
    keyLt (x :: a) (x :: b) = keyLt a b := by
  simp [keyLt]

/-- Whether a separator-delimited composite key sorts below another one is decided
entirely by the (separator-free, distinct) owner parts: any suffixes after the
separator yield the same comparison outcome. -/
theorem keyLt_sep_indep : ∀ p q : List Nat, p ≠ q →
    (∀ b ∈ p, b ≠ 0) → (∀ b ∈ q, b ≠ 0) → ∀ xs ys xs' ys' : List Nat,
    keyLt (p ++ 0 :: xs) (q ++ 0 :: ys) = keyLt (p ++ 0 :: xs') (q ++ 0 :: ys') := by
  intro p
  induction p with
  | nil =>
    intro q hne hp hq xs ys xs' ys'
    cases q with
    | nil => exact absurd rfl hne
    | cons b q' =>
      have hb : b ≠ 0 := hq b (List.mem_cons_self b q')
      simp only [List.nil_append, List.cons_append, keyLt]
      have hlt : decide (0 < b) = true := by simp; omega
      simp [hlt]
  | cons a p' ih =>
    intro q hne hp hq xs ys xs' ys'
    have ha : a ≠ 0 := hp a (List.mem_cons_self a p')
    cases q with
    | nil =>
      simp only [List.nil_append, List.cons_append, keyLt]
      have h1 : decide (a < 0) = false := by simp
      have h2 : (a == 0) = false := by simp [ha]
      simp [h1, h2]
    | cons b q' =>
      simp only [List.cons_append, keyLt]
      rcases Nat.lt_trichotomy a b with h | h | h
      · simp [h]
      · subst h
        have hne' : p' ≠ q' := fun hh => hne (by rw [hh])
        have hp' : ∀ x ∈ p', x ≠ 0 := fun x hx => hp x (List.mem_cons_of_mem a hx)
        have hq' : ∀ x ∈ q', x ≠ 0 := fun x hx => hq x (List.mem_cons_of_mem a hx)
        have hrec := ih q' hne' hp' hq' xs ys xs' ys'
        simp [hrec]
      · have h1 : decide (a < b) = false := by simp; omega
        have h2 : (a == b) = false := by simp; omega
        simp [h1, h2]

/-- Separator-delimited keys of separator-free owners are equal only when the owner
parts are equal. -/
theorem sep_key_inj : ∀ p q : List Nat, (∀ b ∈ p, b ≠ 0) → (∀ b ∈ q, b ≠ 0) →
    ∀ xs ys : List Nat, p ++ 0 :: xs = q ++ 0 :: ys → p = q := by
  intro p
  induction p with
  | nil =>
    intro q _ hq xs ys h
    cases q with
    | nil => rfl
    | cons b q' =>
      simp only [List.nil_append, List.cons_append, List.cons.injEq] at h
      exact absurd h.1.symm (hq b (List.mem_cons_self b q'))
  | cons a p' ih =>
    intro q hp hq xs ys h
    cases q with
    | nil =>
      simp only [List.cons_append, List.nil_append, List.cons.injEq] at h
      exact absurd h.1 (hp a (List.mem_cons_self a p'))
    | cons b q' =>
      simp only [List.cons_append, List.cons.injEq] at h
      have hp' : ∀ x ∈ p', x ≠ 0 := fun x hx => hp x (List.mem_cons_of_mem a hx)
      have hq' : ∀ x ∈ q', x ≠ 0 := fun x hx => hq x (List.mem_cons_of_mem b hx)
      rw [h.1, ih q' hp' hq' xs ys h.2]

theorem lowerByte_lt {b : Nat} (h : b < 256) : lowerByte b < 256 := by
  unfold lowerByte; split <;> omega

theorem hexDigit_ge (n : Nat) : 48 ≤ hexDigit n := by
  unfold hexDigit; split <;> omega

theorem hexDigit_le {n : Nat} (h : n < 16) : hexDigit n ≤ 102 := by
  unfold hexDigit; split <;> omega

/-- A valid ticker's encoding starts with a hex-digit byte: at least `'0'` (48),
at most `'f'` (102). -/
theorem tickEncode_head {t : List Nat} (ht : tickValidB t = true) :
    ∃ d ds, tickEncode t = d :: ds ∧ 48 ≤ d ∧ d ≤ 102 := by
  simp only [tickValidB, Bool.and_eq_true, beq_iff_eq, List.all_eq_true,
    decide_eq_true_eq] at ht
  obtain ⟨hlen, hbytes⟩ := ht
  cases t with
  | nil => simp at hlen
  | cons b rest =>
    have hb : b < 256 := hbytes b (List.mem_cons_self b rest)
    have hlb : lowerByte b < 256 := lowerByte_lt hb
    refine ⟨hexDigit (lowerByte b / 16), _, rfl, hexDigit_ge _, hexDigit_le ?_⟩
    omega

/-! ## Data model and record codec

The record types (`Balance`, `TokenInfo`, `ActionReceipt`, `TransferableLog`) and
their `bincode` (de)serialization live outside `read_only.rs`.  Modelled from the
spec (§3, §4.4 Record Codec): each record is a small structure of the fields the
spec names, and the codec is a concrete injective binary format on byte sequences
whose exact layout this layer never inspects — it only round-trips records and
rejects malformed bytes. -/

/-- Modelled from the spec (§3): a per-(owner, ticker) balance record holding
overall and available quantities. -/
structure Balance where
  overall_balance : Nat
  available_balance : Nat
deriving DecidableEq

/-- Modelled from the spec (§3): per-ticker token metadata. -/
structure TokenInfo where
  supply : Nat
deriving DecidableEq

/-- Modelled from the spec (§3): one receipt of a recorded action. -/
structure ActionReceipt where
  op : Nat
deriving DecidableEq

/-- Modelled from the spec (§3): one pending-transfer log entry, carrying its
inscription identifier. -/
structure TransferableLog where
  inscription_id : Nat
  amount : Nat
deriving DecidableEq

/-- Modelled from the spec (§4.4): encode a `Balance` as bytes. -/
def encBalance (b : Balance) : List Nat := [b.overall_balance, b.available_balance]

/-- Modelled from the spec (§4.4): decode a `Balance`; malformed bytes decode to
nothing. -/
def decBalance : List Nat → Option Balance
  | [o, a] => some ⟨o, a⟩
  | _ => none

/-- Modelled from the spec (§4.4): encode a `TokenInfo` as bytes. -/
def encTokenInfo (i : TokenInfo) : List Nat := [i.supply]

/-- Modelled from the spec (§4.4): decode a `TokenInfo`. -/
def decTokenInfo : List Nat → Option TokenInfo
  | [s] => some ⟨s⟩
  | _ => none

/-- Modelled from the spec (§4.4): encode an ordered `ActionReceipt` batch as one
length-prefixed byte value. -/
def encReceipts (rs : List ActionReceipt) : List Nat :=
  rs.length :: rs.map (fun r => r.op)

/-- Modelled from the spec (§4.4): decode an `ActionReceipt` batch. -/
def decReceipts : List Nat → Option (List ActionReceipt)
  | n :: rest => if rest.length = n then some (rest.map fun b => ⟨b⟩) else none
  | [] => none

/-- Modelled from the spec (§4.4): encode an ordered `TransferableLog` batch as one
length-prefixed byte value, two bytes per entry. -/
def encLogs (ls : List TransferableLog) : List Nat :=
  ls.length :: (ls.map fun l => [l.inscription_id, l.amount]).flatten

/-- Decode `n` two-byte entries. -/
def decLogEntries : Nat → List Nat → Option (List TransferableLog)
  | 0, [] => some []
  | n + 1, i :: a :: rest => (decLogEntries n rest).map (⟨i, a⟩ :: ·)
  | _, _ => none

/-- Modelled from the spec (§4.4): decode a `TransferableLog` batch. -/
def decLogs : List Nat → Option (List TransferableLog)
  | n :: rest => decLogEntries n rest
  | [] => none

theorem decBalance_enc (b : Balance) : decBalance (encBalance b) = some b := rfl

theorem decTokenInfo_enc (i : TokenInfo) : decTokenInfo (encTokenInfo i) = some i := rfl

theorem decReceipts_enc (rs : List ActionReceipt) :
    decReceipts (encReceipts rs) = some rs := by
  simp only [decReceipts, encReceipts, List.length_map, if_true, List.map_map]
  induction rs with
  | nil => rfl
  | cons r rest ih =>
    cases r
    simp only [List.map_cons, Function.comp] at ih ⊢
    simpa using ih

theorem decLogs_enc (ls : List TransferableLog) : decLogs (encLogs ls) = some ls := by
  suffices h : ∀ ls : List TransferableLog,
      decLogEntries ls.length (ls.map fun l => [l.inscription_id, l.amount]).flatten =
        some ls by
    simpa [decLogs, encLogs] using h ls
  intro ls
  induction ls with
  | nil => rfl
  | cons l rest ih => simp [decLogEntries, ih]

/-! ## Storage model: tables and the dual-mode transaction wrapper -/

/-- One stored table: an association list of (key, value-bytes) pairs.  The engine
keeps it sorted strictly ascending by key (`keysSorted`). -/
abbrev TableM : Type := List (List Nat × List Nat)

/-- The engine invariant: keys strictly ascend along the table. -/
def keysSorted : List (List Nat × List Nat) → Bool
  | [] => true
  | [_] => true
  | a :: b :: rest => keyLt a.1 b.1 && keysSorted (b :: rest)

/-- Point-get: the exact stored bytes for an exact key match (`TableWrapper::get`
delegates to this on either variant). -/
def tableGet (t : TableM) (k : List Nat) : Option (List Nat) :=
  (List.find? (fun kv => kv.1 == k) t).map (fun kv => kv.2)

/-- Range scan, lower bound inclusive and upper bound exclusive, in stored (hence
ascending-key) order (`TableWrapper::range` delegates to this on either variant). -/
def tableRange (t : TableM) (lo hi : List Nat) : List (List Nat × List Nat) :=
  List.filter (fun kv => inRangeB lo hi kv.1) t

/-- Unbounded range scan over the whole table (`range::<&str>(..)`). -/
def tableRangeAll (t : TableM) : List (List Nat × List Nat) := t

/-- The contents a transaction observes: table name to table, `none` when the table
cannot be opened under the transaction. -/
abbrev Tables : Type := String → Option TableM

/-- Errors surfaced by a query run: a table that fails to open
(`redb::Error` from `open_table`), or a decode failure, which the Rust code turns
into a process-aborting `panic` via `.unwrap()` and which the model surfaces as the
distinguished outcome `panicked`. -/
inductive RunError where
  | tableError (name : String)
  | panicked
deriving DecidableEq

/-- The dual-mode transaction wrapper of `read_only.rs`: a read-only transaction
(`Rtx`) or a read-write transaction (`Wtx`), each exposing its table contents. -/
inductive ReaderWrapper where
  | Rtx (tables : Tables)
  | Wtx (tables : Tables)

/-- The dual-mode table wrapper: a table opened under a read-only transaction or
under a read-write transaction. -/
inductive TableWrapper where
  | RtxTable (t : TableM)
  | WtxTable (t : TableM)

/-- `ReaderWrapper::open_table`: open a named table under the current variant,
failing with a table error when it does not exist. -/
def ReaderWrapper.open_table : ReaderWrapper → String → Except RunError TableWrapper
  | .Rtx tables, name =>
    match tables name with
    | some t => .ok (.RtxTable t)
    | none => .error (.tableError name)
  | .Wtx tables, name =>
    match tables name with
    | some t => .ok (.WtxTable t)
    | none => .error (.tableError name)

/-- `TableWrapper::get`: both variants delegate to the same point-get. -/
def TableWrapper.get : TableWrapper → List Nat → Option (List Nat)
  | .RtxTable t, k => tableGet t k
  | .WtxTable t, k => tableGet t k

/-- `TableWrapper::range` with bounds: both variants delegate to the same scan. -/
def TableWrapper.range : TableWrapper → List Nat → List Nat → List (List Nat × List Nat)
  | .RtxTable t, lo, hi => tableRange t lo hi
  | .WtxTable t, lo, hi => tableRange t lo hi

/-- `TableWrapper::range` over the full unbounded key range. -/
def TableWrapper.rangeAll : TableWrapper → List (List Nat × List Nat)
  | .RtxTable t => tableRangeAll t
  | .WtxTable t => tableRangeAll t

/-- Table name constant for the balances table. -/
def BRC20_BALANCES : String := "BRC20_BALANCES"

/-- Table name constant for the token-info table. -/
def BRC20_TOKEN : String := "BRC20_TOKEN"

/-- Table name constant for the per-transaction receipts table. -/
def BRC20_EVENTS : String := "BRC20_EVENTS"

/-- Table name constant for the transferable-log table. -/
def BRC20_TRANSFERABLELOG : String := "BRC20_TRANSFERABLELOG"

/-- `BRC20DatabaseReader`: the public reader, wrapping one transaction handle. -/
structure BRC20DatabaseReader where
  wrapper : ReaderWrapper

/-- The `.map(|(_, data)| bincode::deserialize(..).unwrap()).collect()` pattern on a
scan result: decode each row's value, aborting (panicking) at the first row whose
bytes do not decode. -/
def collectDecoded {α : Type} (d : List Nat → Option α) :
    List (List Nat × List Nat) → Except RunError (List α)
  | [] => .ok []
  | kv :: rest =>
    match d kv.2 with
    | some a => (collectDecoded d rest).map (fun l => a :: l)
    | none => .error .panicked

/-! ## The Ledger Reader queries (`impl LedgerRead for BRC20DatabaseReader`) -/

/-- `get_balances`: range scan of the balances table over the owner's key range,
decoding every row. -/
def get_balances (r : BRC20DatabaseReader) (script_key : List Nat) :
    Except RunError (List Balance) :=
  match r.wrapper.open_table BRC20_BALANCES with
  | .error e => .error e
  | .ok tbl =>
    collectDecoded decBalance
      (tbl.range (min_script_tick_key script_key) (max_script_tick_key script_key))

/-- `get_balance`: point lookup of one (owner, ticker) balance; a present value
that fails to decode panics. -/
def get_balance (r : BRC20DatabaseReader) (script_key tick : List Nat) :
    Except RunError (Option Balance) :=
  match r.wrapper.open_table BRC20_BALANCES with
  | .error e => .error e
  | .ok tbl =>
    match tbl.get (script_tick_key script_key tick) with
    | none => .ok none
    | some v =>
      match decBalance v with
      | some b => .ok (some b)
      | none => .error .panicked

/-- `get_token_info`: point lookup keyed by the ticker's lowercase hex encoding. -/
def get_token_info (r : BRC20DatabaseReader) (tick : List Nat) :
    Except RunError (Option TokenInfo) :=
  match r.wrapper.open_table BRC20_TOKEN with
  | .error e => .error e
  | .ok tbl =>
    match tbl.get (hexBytes (tick.map lowerByte)) with
    | none => .ok none
    | some v =>
      match decTokenInfo v with
      | some i => .ok (some i)
      | none => .error .panicked

/-- `get_tokens_info`: unbounded scan of the whole token-info table. -/
def get_tokens_info (r : BRC20DatabaseReader) : Except RunError (List TokenInfo) :=
  match r.wrapper.open_table BRC20_TOKEN with
  | .error e => .error e
  | .ok tbl => collectDecoded decTokenInfo tbl.rangeAll

/-- `get_transaction_receipts`: point lookup by transaction id; absence yields the
empty batch (`map_or(Vec::new(), ..)`), a present malformed value panics. -/
def get_transaction_receipts (r : BRC20DatabaseReader) (txid : List Nat) :
    Except RunError (List ActionReceipt) :=
  match r.wrapper.open_table BRC20_EVENTS with
  | .error e => .error e
  | .ok tbl =>
    match tbl.get txid with
    | none => .ok []
    | some v =>
      match decReceipts v with
      | some rs => .ok rs
      | none => .error .panicked

/-- `get_transferable`: range scan over the owner's key range of the
transferable-log table, decoding each batch and flattening them in order. -/
def get_transferable (r : BRC20DatabaseReader) (script : List Nat) :
    Except RunError (List TransferableLog) :=
  match r.wrapper.open_table BRC20_TRANSFERABLELOG with
  | .error e => .error e
  | .ok tbl =>
    (collectDecoded decLogs
        (tbl.range (min_script_tick_key script) (max_script_tick_key script))).map
      (fun batches => batches.flatten)

/-- `get_transferable_by_tick`: point lookup of one (owner, ticker) batch; absence
yields the empty batch, a present malformed value panics. -/
def get_transferable_by_tick (r : BRC20DatabaseReader) (script tick : List Nat) :
    Except RunError (List TransferableLog) :=
  match r.wrapper.open_table BRC20_TRANSFERABLELOG with
  | .error e => .error e
  | .ok tbl =>
    match tbl.get (script_tick_key script tick) with
    | none => .ok []
    | some v =>
      match decLogs v with
      | some ls => .ok ls
      | none => .error .panicked

/-- `get_transferable_by_id`: fetch the owner's full cross-ticker concatenation via
`get_transferable` and linearly scan it for the first entry with the requested
inscription id. -/
def get_transferable_by_id (r : BRC20DatabaseReader) (script : List Nat)
    (inscription_id : Nat) : Except RunError (Option TransferableLog) :=
  match get_transferable r script with
  | .error e => .error e
  | .ok logs => .ok ((logs.find? fun log => log.inscription_id == inscription_id))

/-! ## Lemmas about scans, decoding and sortedness -/

theorem collectDecoded_ok {α : Type} (d : List Nat → Option α)
    (l : List (List Nat × List Nat)) (h : ∀ kv ∈ l, (d kv.2).isSome) :
    collectDecoded d l = .ok (l.filterMap fun kv => d kv.2) := by
  induction l with
  | nil => rfl
  | cons kv rest ih =>
    have hkv : (d kv.2).isSome := h kv (List.mem_cons_self kv rest)
    obtain ⟨a, ha⟩ := Option.isSome_iff_exists.mp hkv
    have hrest := ih fun x hx => h x (List.mem_cons_of_mem kv hx)
    simp [collectDecoded, ha, hrest, List.filterMap_cons, Except.map]

theorem collectDecoded_panicked {α : Type} (d : List Nat → Option α)
    (l : List (List Nat × List Nat)) (kv : List Nat × List Nat)
    (hmem : kv ∈ l) (hfail : d kv.2 = none) :
    collectDecoded d l = .error .panicked := by
  induction l with
  | nil => cases hmem
  | cons x rest ih =>
    rcases List.mem_cons.mp hmem with rfl | hmem'
    · simp [collectDecoded, hfail]
    · unfold collectDecoded
      cases hx : d x.2 with
      | none => rfl
      | some a => simp [ih hmem', Except.map]

theorem keysSorted_pairwise : ∀ l : List (List Nat × List Nat), keysSorted l = true →
    l.Pairwise fun x y => keyLt x.1 y.1 = true := by
  intro l
  induction l with
  | nil => intro; exact List.Pairwise.nil
  | cons x rest ih =>
    intro h
    cases rest with
    | nil => exact List.pairwise_singleton _ x
    | cons y rest' =>
      simp only [keysSorted, Bool.and_eq_true] at h
      have htail := ih h.2
      refine List.Pairwise.cons ?_ htail
      intro z hz
      rcases List.mem_cons.mp hz with rfl | hz'
      · exact h.1
      · have hy := (List.pairwise_cons.mp htail).1 z hz'
        exact keyLt_trans h.1 hy

/-- In a strictly-ascending list, an element with a smaller key occurs before one
with a larger key: the two form a sublist in that order. -/
theorem pairwise_pair_sublist :
    ∀ (l : List (List Nat × List Nat)) (x y : List Nat × List Nat),
    l.Pairwise (fun a b => keyLt a.1 b.1 = true) → x ∈ l → y ∈ l →
    keyLt x.1 y.1 = true → List.Sublist [x, y] l := by
  intro l
  induction l with
  | nil => intro x y _ hx; cases hx
  | cons a rest ih =>
    intro x y hpw hx hy hlt
    have hpw' := List.pairwise_cons.mp hpw
    rcases List.mem_cons.mp hx with rfl | hx'
    · rcases List.mem_cons.mp hy with rfl | hy'
      · rw [keyLt_irrefl] at hlt; cases hlt
      · exact List.Sublist.cons₂ x (List.singleton_sublist.mpr hy')
    · rcases List.mem_cons.mp hy with rfl | hy'
      · have : keyLt y.1 x.1 = true := hpw'.1 x hx'
        rw [keyLt_asymm this] at hlt; cases hlt
      · exact List.Sublist.cons a (ih x y hpw'.2 hx' hy' hlt)

theorem scriptKeyValid_no_sep {s : List Nat} (h : scriptKeyValidB s = true) :
    ∀ b ∈ s, b ≠ 0 := by
  simp only [scriptKeyValidB, List.all_eq_true, Bool.and_eq_true, decide_eq_true_eq] at h
  intro b hb
  simpa [sepByte] using (h b hb).1

/-- The owner's lower bound sorts strictly below every point key of that owner. -/
theorem min_key_lt_point_key (O T : List Nat) (hT : tickValidB T = true) :
    keyLt (min_script_tick_key O) (script_tick_key O T) = true := by
  obtain ⟨d, ds, henc, hd48, _⟩ := tickEncode_head hT
  unfold min_script_tick_key script_tick_key
  rw [keyLt_append_left, keyLt_cons_same, henc]
  show keyLt (List.replicate 8 0) (d :: ds) = true
  simp only [List.replicate, keyLt, Bool.or_eq_true, decide_eq_true_eq]
  exact Or.inl (by omega)

/-- Every point key of an owner sorts strictly below that owner's upper bound. -/
theorem point_key_lt_max_key (O T : List Nat) (hT : tickValidB T = true) :
    keyLt (script_tick_key O T) (max_script_tick_key O) = true := by
  obtain ⟨d, ds, henc, _, hd102⟩ := tickEncode_head hT
  unfold max_script_tick_key script_tick_key
  rw [keyLt_append_left, keyLt_cons_same, henc]
  show keyLt (d :: ds) (List.replicate 8 255) = true
  simp only [List.replicate, keyLt, Bool.or_eq_true, decide_eq_true_eq]
  exact Or.inl (by omega)

/-- No separator-delimited key of a different (valid) owner lies in the half-open
range between an owner's lower and upper bounds. -/
theorem other_owner_key_not_in_range (O Oother z : List Nat)
    (hO : scriptKeyValidB O = true) (hOother : scriptKeyValidB Oother = true)
    (hne : O ≠ Oother) :
    inRangeB (min_script_tick_key O) (max_script_tick_key O) (Oother ++ 0 :: z) = false := by
  have h0O := scriptKeyValid_no_sep hO
  have h0Oo := scriptKeyValid_no_sep hOother
  cases hr : inRangeB (min_script_tick_key O) (max_script_tick_key O) (Oother ++ 0 :: z) with
  | false => rfl
  | true =>
    exfalso
    simp only [inRangeB, keyLe, Bool.and_eq_true, Bool.or_eq_true] at hr
    obtain ⟨hle, hhi⟩ := hr
    have hlo : keyLt (min_script_tick_key O) (Oother ++ 0 :: z) = true := by
      rcases hle with hle | heq
      · exact hle
      · exact absurd (sep_key_inj O Oother h0O h0Oo _ _ (beq_iff_eq.mp heq)) hne
    have hlo' : keyLt (O ++ 0 :: minTickSentinel) (Oother ++ 0 :: z) = true := by
      simpa [min_script_tick_key, sepByte] using hlo
    have hhi' : keyLt (Oother ++ 0 :: z) (O ++ 0 :: minTickSentinel) = true := by
      have := keyLt_sep_indep Oother O (fun hh => hne hh.symm) h0Oo h0O
        z maxTickSentinel z minTickSentinel
      have hhi'' : keyLt (Oother ++ 0 :: z) (O ++ 0 :: maxTickSentinel) = true := by
        simpa [max_script_tick_key, sepByte] using hhi
      rw [← this]; exact hhi''
    rw [keyLt_asymm hlo'] at hhi'
    cases hhi'

/-- C1: for every owner `O` and tickers `T1 < T2` (in the ticker encoding's own
order), `lowerBound(O) ≤ pointKey(O,T1) < pointKey(O,T2) < upperBound(O)`, and no
key built for a different owner — neither a point key nor a bound key — lies in the
half-open interval `[lowerBound(O), upperBound(O))`. -/
theorem c1_key_codec_contract (O Oother T1 T2 T : List Nat)
    (hO : scriptKeyValidB O = true) (hOother : scriptKeyValidB Oother = true)
    (hne : O ≠ Oother)
    (hT1 : tickValidB T1 = true) (hT2 : tickValidB T2 = true)
    (hlt : keyLt (tickEncode T1) (tickEncode T2) = true) :
    keyLe (min_script_tick_key O) (script_tick_key O T1) = true ∧
    keyLt (script_tick_key O T1) (script_tick_key O T2) = true ∧
    keyLt (script_tick_key O T2) (max_script_tick_key O) = true ∧
    inRangeB (min_script_tick_key O) (max_script_tick_key O)
      (script_tick_key Oother T) = false ∧
    inRangeB (min_script_tick_key O) (max_script_tick_key O)
      (min_script_tick_key Oother) = false ∧
    inRangeB (min_script_tick_key O) (max_script_tick_key O)
      (max_script_tick_key Oother) = false := by
  refine ⟨?_, ?_, ?_, ?_, ?_, ?_⟩
  · unfold keyLe
    rw [min_key_lt_point_key O T1 hT1]
    rfl
  · unfold script_tick_key
    rw [keyLt_append_left, keyLt_cons_same]
    exact hlt
  · exact point_key_lt_max_key O T2 hT2
  · have := other_owner_key_not_in_range O Oother (tickEncode T) hO hOother hne
    simpa [script_tick_key, sepByte] using this
  · have := other_owner_key_not_in_range O Oother minTickSentinel hO hOother hne
    simpa [min_script_tick_key, sepByte] using this
  · have := other_owner_key_not_in_range O Oother maxTickSentinel hO hOother hne
    simpa [max_script_tick_key, sepByte] using this

/-- Witness for C1 at concrete owners `"a"`, `"b"` and tickers `"aaaa" < "aaab"`. -/
theorem c1_key_codec_contract_witness :
    keyLe (min_script_tick_key [97]) (script_tick_key [97] [97, 97, 97, 97]) = true ∧
    keyLt (script_tick_key [97] [97, 97, 97, 97])
      (script_tick_key [97] [97, 97, 97, 98]) = true ∧
    keyLt (script_tick_key [97] [97, 97, 97, 98]) (max_script_tick_key [97]) = true ∧
    inRangeB (min_script_tick_key [97]) (max_script_tick_key [97])
      (script_tick_key [98] [99, 100, 101, 102]) = false ∧
    inRangeB (min_script_tick_key [97]) (max_script_tick_key [97])
      (min_script_tick_key [98]) = false ∧
    inRangeB (min_script_tick_key [97]) (max_script_tick_key [97])
      (max_script_tick_key [98]) = false :=
  c1_key_codec_contract [97] [98] [97, 97, 97, 97] [97, 97, 97, 98] [99, 100, 101, 102]
    (by decide) (by decide) (by decide) (by decide) (by decide) (by decide)

/-- C2: backing the reader by the read-only (`Rtx`) or the read-write (`Wtx`)
transaction variant is unobservable — over the same table contents, the two
branches of `get` and of `range` return the same bytes for the same key and the
same key range, and every Ledger Reader query returns the same result. -/
theorem c2_dual_mode_read_equivalence (f : Tables) (t : TableM)
    (k lo hi O T txid : List Nat) (id : Nat) :
    (TableWrapper.RtxTable t).get k = (TableWrapper.WtxTable t).get k ∧
    (TableWrapper.RtxTable t).range lo hi = (TableWrapper.WtxTable t).range lo hi ∧
    (TableWrapper.RtxTable t).rangeAll = (TableWrapper.WtxTable t).rangeAll ∧
    get_balances ⟨.Rtx f⟩ O = get_balances ⟨.Wtx f⟩ O ∧
    get_balance ⟨.Rtx f⟩ O T = get_balance ⟨.Wtx f⟩ O T ∧
    get_token_info ⟨.Rtx f⟩ T = get_token_info ⟨.Wtx f⟩ T ∧
    get_tokens_info ⟨.Rtx f⟩ = get_tokens_info ⟨.Wtx f⟩ ∧
    get_transaction_receipts ⟨.Rtx f⟩ txid = get_transaction_receipts ⟨.Wtx f⟩ txid ∧
    get_transferable ⟨.Rtx f⟩ O = get_transferable ⟨.Wtx f⟩ O ∧
    get_transferable_by_tick ⟨.Rtx f⟩ O T = get_transferable_by_tick ⟨.Wtx f⟩ O T ∧
    get_transferable_by_id ⟨.Rtx f⟩ O id = get_transferable_by_id ⟨.Wtx f⟩ O id := by
  have htrans : get_transferable ⟨ReaderWrapper.Rtx f⟩ O =
      get_transferable ⟨ReaderWrapper.Wtx f⟩ O := by
    cases hf : f BRC20_TRANSFERABLELOG <;>
      simp [get_transferable, ReaderWrapper.open_table, hf, TableWrapper.range]
  refine ⟨rfl, rfl, rfl, ?_, ?_, ?_, ?_, ?_, htrans, ?_, ?_⟩
  · cases hf : f BRC20_BALANCES <;>
      simp [get_balances, ReaderWrapper.open_table, hf, TableWrapper.range]
  · cases hf : f BRC20_BALANCES <;>
      simp [get_balance, ReaderWrapper.open_table, hf, TableWrapper.get]
  · cases hf : f BRC20_TOKEN <;>
      simp [get_token_info, ReaderWrapper.open_table, hf, TableWrapper.get]
  · cases hf : f BRC20_TOKEN <;>
      simp [get_tokens_info, ReaderWrapper.open_table, hf, TableWrapper.rangeAll]
  · cases hf : f BRC20_EVENTS <;>
      simp [get_transaction_receipts, ReaderWrapper.open_table, hf, TableWrapper.get]
  · cases hf : f BRC20_TRANSFERABLELOG <;>
      simp [get_transferable_by_tick, ReaderWrapper.open_table, hf, TableWrapper.get]
  · simp [get_transferable_by_id, htrans]

/-- C8: every query is a pure, deterministic read whose result depends only on the
stored contents of the tables it opens: two readers whose transactions observe the
same contents for the four ledger tables (and may differ elsewhere) answer every
query identically, whichever run it is. -/
theorem c8_queries_depend_only_on_table_contents (f g : Tables)
    (O T txid : List Nat) (id : Nat)
    (hbal : f BRC20_BALANCES = g BRC20_BALANCES)
    (htok : f BRC20_TOKEN = g BRC20_TOKEN)
    (hev : f BRC20_EVENTS = g BRC20_EVENTS)
    (htl : f BRC20_TRANSFERABLELOG = g BRC20_TRANSFERABLELOG) :
    get_balances ⟨.Rtx f⟩ O = get_balances ⟨.Rtx g⟩ O ∧
    get_balance ⟨.Rtx f⟩ O T = get_balance ⟨.Rtx g⟩ O T ∧
    get_token_info ⟨.Rtx f⟩ T = get_token_info ⟨.Rtx g⟩ T ∧
    get_tokens_info ⟨.Rtx f⟩ = get_tokens_info ⟨.Rtx g⟩ ∧
    get_transaction_receipts ⟨.Rtx f⟩ txid = get_transaction_receipts ⟨.Rtx g⟩ txid ∧
    get_transferable ⟨.Rtx f⟩ O = get_transferable ⟨.Rtx g⟩ O ∧
    get_transferable_by_tick ⟨.Rtx f⟩ O T = get_transferable_by_tick ⟨.Rtx g⟩ O T ∧
    get_transferable_by_id ⟨.Rtx f⟩ O id = get_transferable_by_id ⟨.Rtx g⟩ O id := by
  have htrans : get_transferable ⟨ReaderWrapper.Rtx f⟩ O =
      get_transferable ⟨ReaderWrapper.Rtx g⟩ O := by
    simp [get_transferable, ReaderWrapper.open_table, htl]
  refine ⟨?_, ?_, ?_, ?_, ?_, htrans, ?_, ?_⟩
  · simp [get_balances, ReaderWrapper.open_table, hbal]
  · simp [get_balance, ReaderWrapper.open_table, hbal]
  · simp [get_token_info, ReaderWrapper.open_table, htok]
  · simp [get_tokens_info, ReaderWrapper.open_table, htok]
  · simp [get_transaction_receipts, ReaderWrapper.open_table, hev]
  · simp [get_transferable_by_tick, ReaderWrapper.open_table, htl]
  · simp [get_transferable_by_id, htrans]

/-- Witness for C8: two table maps that agree on the four ledger tables but differ
on an unrelated table name give identical answers to every query. -/
theorem c8_queries_depend_only_on_table_contents_witness :
    get_balances ⟨.Rtx fun _ => some []⟩ [97] =
      get_balances ⟨.Rtx fun n => if n = "other" then none else some []⟩ [97] ∧
    get_balance ⟨.Rtx fun _ => some []⟩ [97] [98, 98, 98, 98] =
      get_balance ⟨.Rtx fun n => if n = "other" then none else some []⟩ [97]
        [98, 98, 98, 98] ∧
    get_token_info ⟨.Rtx fun _ => some []⟩ [98, 98, 98, 98] =
      get_token_info ⟨.Rtx fun n => if n = "other" then none else some []⟩
        [98, 98, 98, 98] ∧
    get_tokens_info ⟨.Rtx fun _ => some []⟩ =
      get_tokens_info ⟨.Rtx fun n => if n = "other" then none else some []⟩ ∧
    get_transaction_receipts ⟨.Rtx fun _ => some []⟩ [100] =
      get_transaction_receipts ⟨.Rtx fun n => if n = "other" then none else some []⟩
        [100] ∧
    get_transferable ⟨.Rtx fun _ => some []⟩ [97] =
      get_transferable ⟨.Rtx fun n => if n = "other" then none else some []⟩ [97] ∧
    get_transferable_by_tick ⟨.Rtx fun _ => some []⟩ [97] [98, 98, 98, 98] =
      get_transferable_by_tick ⟨.Rtx fun n => if n = "other" then none else some []⟩
        [97] [98, 98, 98, 98] ∧
    get_transferable_by_id ⟨.Rtx fun _ => some []⟩ [97] 5 =
      get_transferable_by_id ⟨.Rtx fun n => if n = "other" then none else some []⟩
        [97] 5 :=
  c8_queries_depend_only_on_table_contents (fun _ => some [])
    (fun n => if n = "other" then none else some []) [97] [98, 98, 98, 98] [100] 5
    (by decide) (by decide) (by decide) (by decide)

/-- C9: `get_token_info` keys the lookup by the lowercase-normalized hex encoding
of the ticker, so two tickers that agree after lowercase normalization — in
particular two spellings differing only in ASCII letter case — always produce the
same result. -/
theorem c9_get_token_info_case_insensitive (r : BRC20DatabaseReader)
    (T1 T2 : List Nat) (h : T1.map lowerByte = T2.map lowerByte) :
    get_token_info r T1 = get_token_info r T2 := by
  unfold get_token_info
  rw [h]

/-- Witness for C9: `"ABcd"` and `"abCD"` resolve to the same token info. -/
theorem c9_get_token_info_case_insensitive_witness :
    get_token_info ⟨.Rtx fun _ => some []⟩ [65, 66, 99, 100] =
      get_token_info ⟨.Rtx fun _ => some []⟩ [97, 98, 67, 68] :=
  c9_get_token_info_case_insensitive ⟨.Rtx fun _ => some []⟩
    [65, 66, 99, 100] [97, 98, 67, 68] (by decide)

/-- When every row of the balances table decodes, `get_balances` succeeds with the
decoded rows of the owner's key range, in stored order. -/
theorem get_balances_ok (f : Tables) (t : TableM) (O : List Nat)
    (hf : f BRC20_BALANCES = some t)
    (hdec : ∀ kv ∈ t, (decBalance kv.2).isSome = true) :
    get_balances ⟨.Rtx f⟩ O =
      .ok ((tableRange t (min_script_tick_key O) (max_script_tick_key O)).filterMap
        fun kv => decBalance kv.2) := by
  have hdec' : ∀ kv ∈ tableRange t (min_script_tick_key O) (max_script_tick_key O),
      (decBalance kv.2).isSome = true := by
    intro kv hkv
    exact hdec kv (List.mem_filter.mp hkv).1
  simp [get_balances, ReaderWrapper.open_table, hf, TableWrapper.range,
    collectDecoded_ok decBalance _ hdec']

/-- When every batch of the transferable-log table decodes, `get_transferable`
succeeds with the concatenation of the decoded batches of the owner's key range,
in stored order. -/
theorem get_transferable_ok (f : Tables) (t : TableM) (O : List Nat)
    (hf : f BRC20_TRANSFERABLELOG = some t)
    (hdec : ∀ kv ∈ t, (decLogs kv.2).isSome = true) :
    get_transferable ⟨.Rtx f⟩ O =
      .ok (((tableRange t (min_script_tick_key O) (max_script_tick_key O)).filterMap
        fun kv => decLogs kv.2).flatten) := by
  have hdec' : ∀ kv ∈ tableRange t (min_script_tick_key O) (max_script_tick_key O),
      (decLogs kv.2).isSome = true := by
    intro kv hkv
    exact hdec kv (List.mem_filter.mp hkv).1
  simp [get_transferable, ReaderWrapper.open_table, hf, TableWrapper.range,
    collectDecoded_ok decLogs _ hdec', Except.map]

/-- A valid owner's point key for a valid ticker lies inside that owner's scan
range. -/
theorem point_key_in_range (O T : List Nat) (hT : tickValidB T = true) :
    inRangeB (min_script_tick_key O) (max_script_tick_key O)
      (script_tick_key O T) = true := by
  simp only [inRangeB, keyLe, Bool.and_eq_true, Bool.or_eq_true]
  exact ⟨Or.inl (min_key_lt_point_key O T hT), point_key_lt_max_key O T hT⟩

/-- C5: `get_balances(O)` returns exactly the balance records whose keys lie in
`[lowerBound(O), upperBound(O))`, decoded in ascending key order; two present
tickers `T1 < T2` of `O` both appear, `T1`'s record before `T2`'s; a record of a
different owner is excluded from the scan; and the result is empty exactly when
the owner's range holds no record. -/
theorem c5_get_balances_functional (f : Tables) (t : TableM)
    (O T1 T2 Oother T3 : List Nat) (b1 b2 : Balance) (v3 : List Nat)
    (hf : f BRC20_BALANCES = some t)
    (hsorted : keysSorted t = true)
    (hdec : ∀ kv ∈ t, (decBalance kv.2).isSome = true)
    (hT1 : tickValidB T1 = true) (hT2 : tickValidB T2 = true)
    (hlt : keyLt (tickEncode T1) (tickEncode T2) = true)
    (hm1 : (script_tick_key O T1, encBalance b1) ∈ t)
    (hm2 : (script_tick_key O T2, encBalance b2) ∈ t)
    (hO : scriptKeyValidB O = true) (hOother : scriptKeyValidB Oother = true)
    (hne : O ≠ Oother) :
    get_balances ⟨.Rtx f⟩ O =
      .ok ((tableRange t (min_script_tick_key O) (max_script_tick_key O)).filterMap
        fun kv => decBalance kv.2) ∧
    (tableRange t (min_script_tick_key O) (max_script_tick_key O)).Pairwise
      (fun x y => keyLt x.1 y.1 = true) ∧
    List.Sublist [b1, b2]
      ((tableRange t (min_script_tick_key O) (max_script_tick_key O)).filterMap
        fun kv => decBalance kv.2) ∧
    decide ((script_tick_key Oother T3, v3) ∈
      tableRange t (min_script_tick_key O) (max_script_tick_key O)) = false ∧
    ((tableRange t (min_script_tick_key O) (max_script_tick_key O) = []) ↔
      (get_balances ⟨.Rtx f⟩ O = .ok [])) := by
  have hmain := get_balances_ok f t O hf hdec
  have hpw : (tableRange t (min_script_tick_key O) (max_script_tick_key O)).Pairwise
      (fun x y => keyLt x.1 y.1 = true) :=
    (keysSorted_pairwise t hsorted).sublist (List.filter_sublist t)
  have hin1 := point_key_in_range O T1 hT1
  have hin2 := point_key_in_range O T2 hT2
  have hmem1 : (script_tick_key O T1, encBalance b1) ∈
      tableRange t (min_script_tick_key O) (max_script_tick_key O) :=
    List.mem_filter.mpr ⟨hm1, hin1⟩
  have hmem2 : (script_tick_key O T2, encBalance b2) ∈
      tableRange t (min_script_tick_key O) (max_script_tick_key O) :=
    List.mem_filter.mpr ⟨hm2, hin2⟩
  have hkeylt : keyLt (script_tick_key O T1) (script_tick_key O T2) = true := by
    unfold script_tick_key
    rw [keyLt_append_left, keyLt_cons_same]
    exact hlt
  have hsub := pairwise_pair_sublist _ _ _ hpw hmem1 hmem2 hkeylt
  refine ⟨hmain, hpw, ?_, ?_, ?_⟩
  · have := hsub.filterMap (fun kv : List Nat × List Nat => decBalance kv.2)
    simpa [List.filterMap_cons, decBalance_enc] using this
  · refine decide_eq_false ?_
    intro hmem
    have hfalse := (List.mem_filter.mp hmem).2
    rw [show script_tick_key Oother T3 = Oother ++ 0 :: tickEncode T3 by
        simp [script_tick_key, sepByte],
      other_owner_key_not_in_range O Oother (tickEncode T3) hO hOother hne] at hfalse
    cases hfalse
  · constructor
    · intro hnil
      rw [hmain, hnil]
      rfl
    · intro hok
      rw [hmain] at hok
      cases htr : tableRange t (min_script_tick_key O) (max_script_tick_key O) with
      | nil => rfl
      | cons kv rest =>
        exfalso
        have hkv : kv ∈ t := by
          have : kv ∈ tableRange t (min_script_tick_key O) (max_script_tick_key O) := by
            rw [htr]; exact List.mem_cons_self kv rest
          exact (List.mem_filter.mp this).1
        obtain ⟨b, hb⟩ := Option.isSome_iff_exists.mp (hdec kv hkv)
        rw [htr] at hok
        simp [List.filterMap_cons, hb] at hok

/-- Witness for C5: owner `"a"` holds balances for tickers `"aaaa"` and `"aaab"`,
owner `"b"` holds one for `"cdef"`; the scan returns exactly the two `"a"` records
in ticker order and excludes owner `"b"`. -/
theorem c5_get_balances_functional_witness :
    get_balances ⟨.Rtx fun _ => some
        [(script_tick_key [97] [97, 97, 97, 97], encBalance ⟨100, 100⟩),
         (script_tick_key [97] [97, 97, 97, 98], encBalance ⟨50, 0⟩),
         (script_tick_key [98] [99, 100, 101, 102], encBalance ⟨7, 7⟩)]⟩ [97] =
      .ok ((tableRange
          [(script_tick_key [97] [97, 97, 97, 97], encBalance ⟨100, 100⟩),
           (script_tick_key [97] [97, 97, 97, 98], encBalance ⟨50, 0⟩),
           (script_tick_key [98] [99, 100, 101, 102], encBalance ⟨7, 7⟩)]
          (min_script_tick_key [97]) (max_script_tick_key [97])).filterMap
        fun kv => decBalance kv.2) ∧
    (tableRange
        [(script_tick_key [97] [97, 97, 97, 97], encBalance ⟨100, 100⟩),
         (script_tick_key [97] [97, 97, 97, 98], encBalance ⟨50, 0⟩),
         (script_tick_key [98] [99, 100, 101, 102], encBalance ⟨7, 7⟩)]
        (min_script_tick_key [97]) (max_script_tick_key [97])).Pairwise
      (fun x y => keyLt x.1 y.1 = true) ∧
    List.Sublist [(⟨100, 100⟩ : Balance), ⟨50, 0⟩]
      ((tableRange
          [(script_tick_key [97] [97, 97, 97, 97], encBalance ⟨100, 100⟩),
           (script_tick_key [97] [97, 97, 97, 98], encBalance ⟨50, 0⟩),
           (script_tick_key [98] [99, 100, 101, 102], encBalance ⟨7, 7⟩)]
          (min_script_tick_key [97]) (max_script_tick_key [97])).filterMap
        fun kv => decBalance kv.2) ∧
    decide ((script_tick_key [98] [99, 100, 101, 102], encBalance ⟨7, 7⟩) ∈
      tableRange
        [(script_tick_key [97] [97, 97, 97, 97], encBalance ⟨100, 100⟩),
         (script_tick_key [97] [97, 97, 97, 98], encBalance ⟨50, 0⟩),
         (script_tick_key [98] [99, 100, 101, 102], encBalance ⟨7, 7⟩)]
        (min_script_tick_key [97]) (max_script_tick_key [97])) = false ∧
    ((tableRange
        [(script_tick_key [97] [97, 97, 97, 97], encBalance ⟨100, 100⟩),
         (script_tick_key [97] [97, 97, 97, 98], encBalance ⟨50, 0⟩),
         (script_tick_key [98] [99, 100, 101, 102], encBalance ⟨7, 7⟩)]
        (min_script_tick_key [97]) (max_script_tick_key [97]) = []) ↔
      (get_balances ⟨.Rtx fun _ => some
          [(script_tick_key [97] [97, 97, 97, 97], encBalance ⟨100, 100⟩),
           (script_tick_key [97] [97, 97, 97, 98], encBalance ⟨50, 0⟩),
           (script_tick_key [98] [99, 100, 101, 102], encBalance ⟨7, 7⟩)]⟩ [97] =
        .ok [])) :=
  c5_get_balances_functional _ _ [97] [97, 97, 97, 97] [97, 97, 97, 98] [98]
    [99, 100, 101, 102] ⟨100, 100⟩ ⟨50, 0⟩ (encBalance ⟨7, 7⟩)
    rfl (by decide) (by decide) (by decide) (by decide) (by decide)
    (by decide) (by decide) (by decide) (by decide) (by decide)

/-- C6: `get_transferable(O)` equals the concatenation of every transferable-log
batch whose key lies in `[lowerBound(O), upperBound(O))`, the batches taken in
ascending key order and each batch kept in its stored in-batch order. -/
theorem c6_get_transferable_concatenates (f : Tables) (t : TableM) (O : List Nat)
    (hf : f BRC20_TRANSFERABLELOG = some t)
    (hsorted : keysSorted t = true)
    (hdec : ∀ kv ∈ t, (decLogs kv.2).isSome = true) :
    get_transferable ⟨.Rtx f⟩ O =
      .ok (((tableRange t (min_script_tick_key O) (max_script_tick_key O)).filterMap
        fun kv => decLogs kv.2).flatten) ∧
    (tableRange t (min_script_tick_key O) (max_script_tick_key O)).Pairwise
      (fun x y => keyLt x.1 y.1 = true) :=
  ⟨get_transferable_ok f t O hf hdec,
    (keysSorted_pairwise t hsorted).sublist (List.filter_sublist t)⟩

/-- Witness for C6: owner `"a"` holds two batches under tickers `"aaaa"` and
`"aaab"`; the query concatenates them in key order. -/
theorem c6_get_transferable_concatenates_witness :
    get_transferable ⟨.Rtx fun _ => some
        [(script_tick_key [97] [97, 97, 97, 97], encLogs [⟨1, 10⟩, ⟨2, 20⟩]),
         (script_tick_key [97] [97, 97, 97, 98], encLogs [⟨3, 30⟩])]⟩ [97] =
      .ok (((tableRange
          [(script_tick_key [97] [97, 97, 97, 97], encLogs [⟨1, 10⟩, ⟨2, 20⟩]),
           (script_tick_key [97] [97, 97, 97, 98], encLogs [⟨3, 30⟩])]
          (min_script_tick_key [97]) (max_script_tick_key [97])).filterMap
        fun kv => decLogs kv.2).flatten) ∧
    (tableRange
        [(script_tick_key [97] [97, 97, 97, 97], encLogs [⟨1, 10⟩, ⟨2, 20⟩]),
         (script_tick_key [97] [97, 97, 97, 98], encLogs [⟨3, 30⟩])]
        (min_script_tick_key [97]) (max_script_tick_key [97])).Pairwise
      (fun x y => keyLt x.1 y.1 = true) :=
  c6_get_transferable_concatenates _ _ [97] rfl (by decide) (by decide)

/-- C7: absence of the requested key is never an error: unknown transaction ids
and absent (owner, ticker) transferable keys yield the empty sequence, absent
balance and token-info keys yield `none`, all with a successful result. -/
theorem c7_absence_is_not_an_error (f : Tables) (tB tT tE tL : TableM)
    (O T txid : List Nat)
    (hfB : f BRC20_BALANCES = some tB) (hfT : f BRC20_TOKEN = some tT)
    (hfE : f BRC20_EVENTS = some tE) (hfL : f BRC20_TRANSFERABLELOG = some tL)
    (habsE : tableGet tE txid = none)
    (habsL : tableGet tL (script_tick_key O T) = none)
    (habsB : tableGet tB (script_tick_key O T) = none)
    (habsT : tableGet tT (hexBytes (T.map lowerByte)) = none) :
    get_transaction_receipts ⟨.Rtx f⟩ txid = .ok [] ∧
    get_transferable_by_tick ⟨.Rtx f⟩ O T = .ok [] ∧
    get_balance ⟨.Rtx f⟩ O T = .ok none ∧
    get_token_info ⟨.Rtx f⟩ T = .ok none := by
  refine ⟨?_, ?_, ?_, ?_⟩
  · simp [get_transaction_receipts, ReaderWrapper.open_table, hfE,
      TableWrapper.get, habsE]
  · simp [get_transferable_by_tick, ReaderWrapper.open_table, hfL,
      TableWrapper.get, habsL]
  · simp [get_balance, ReaderWrapper.open_table, hfB, TableWrapper.get, habsB]
  · simp [get_token_info, ReaderWrapper.open_table, hfT, TableWrapper.get, habsT]

/-- Witness for C7: over empty tables every absence query succeeds with an empty
result or `none`. -/
theorem c7_absence_is_not_an_error_witness :
    get_transaction_receipts ⟨.Rtx fun _ => some []⟩ [100] = .ok [] ∧
    get_transferable_by_tick ⟨.Rtx fun _ => some []⟩ [97] [98, 98, 98, 98] = .ok [] ∧
    get_balance ⟨.Rtx fun _ => some []⟩ [97] [98, 98, 98, 98] = .ok none ∧
    get_token_info ⟨.Rtx fun _ => some []⟩ [98, 98, 98, 98] = .ok none :=
  c7_absence_is_not_an_error (fun _ => some []) [] [] [] [] [97] [98, 98, 98, 98]
    [100] rfl rfl rfl rfl (by decide) (by decide) (by decide) (by decide)

/-- C10: `get_transferable_by_id` takes no ticker argument: it fetches the owner's
full cross-ticker concatenation (`get_transferable`, key order then in-batch order)
and returns the first entry whose inscription identifier equals the requested id —
`none` when no entry of any of the owner's batches matches. -/
theorem c10_transferable_by_id_scans_all_batches (r : BRC20DatabaseReader)
    (script : List Nat) (id : Nat) :
    get_transferable_by_id r script id =
      (get_transferable r script).map
        fun logs => logs.find? fun log => log.inscription_id == id := by
  unfold get_transferable_by_id
  cases h : get_transferable r script <;> simp [Except.map]

/-- C3 counterexample: a stored byte sequence that does not decode as a `Balance`
(here the one-byte value `[7]`, lying inside owner `"a"`'s scan range) makes
`get_balances` abort with the panic outcome of `.unwrap()` — not with a decode
error carrying the table name and raw key, which this layer does not produce. -/
theorem c3_counterexample_decode_failure_aborts :
    get_balances
      ⟨.Rtx fun _ => some [(script_tick_key [97] [97, 97, 97, 97], [7])]⟩ [97] =
      .error .panicked := by
  rfl

/-- C3 amended: for every query, a stored byte sequence that does not decode to
the expected record shape makes the query abort via the panic of `.unwrap()`
(modelled as the `panicked` outcome); no default value is silently substituted
and no decode error with table/key context is returned.  One conjunct per
decoding query of the reader. -/
theorem c3_decode_failure_panics_amended (f : Tables) (tB tT tE tL : TableM)
    (O TB TT TL txid : List Nat) (id : Nat)
    (kvB kvT kvL : List Nat × List Nat) (vB vT vE vL : List Nat)
    (hfB : f BRC20_BALANCES = some tB) (hfT : f BRC20_TOKEN = some tT)
    (hfE : f BRC20_EVENTS = some tE) (hfL : f BRC20_TRANSFERABLELOG = some tL)
    (hkvB : kvB ∈ tB)
    (hinB : inRangeB (min_script_tick_key O) (max_script_tick_key O) kvB.1 = true)
    (hbadkvB : decBalance kvB.2 = none)
    (hgetB : tableGet tB (script_tick_key O TB) = some vB)
    (hbadB : decBalance vB = none)
    (hgetT : tableGet tT (hexBytes (TT.map lowerByte)) = some vT)
    (hbadT : decTokenInfo vT = none)
    (hkvT : kvT ∈ tT) (hbadkvT : decTokenInfo kvT.2 = none)
    (hgetE : tableGet tE txid = some vE) (hbadE : decReceipts vE = none)
    (hkvL : kvL ∈ tL)
    (hinL : inRangeB (min_script_tick_key O) (max_script_tick_key O) kvL.1 = true)
    (hbadkvL : decLogs kvL.2 = none)
    (hgetL : tableGet tL (script_tick_key O TL) = some vL)
    (hbadL : decLogs vL = none) :
    get_balances ⟨.Rtx f⟩ O = .error .panicked ∧
    get_balance ⟨.Rtx f⟩ O TB = .error .panicked ∧
    get_token_info ⟨.Rtx f⟩ TT = .error .panicked ∧
    get_tokens_info ⟨.Rtx f⟩ = .error .panicked ∧
    get_transaction_receipts ⟨.Rtx f⟩ txid = .error .panicked ∧
    get_transferable ⟨.Rtx f⟩ O = .error .panicked ∧
    get_transferable_by_tick ⟨.Rtx f⟩ O TL = .error .panicked ∧
    get_transferable_by_id ⟨.Rtx f⟩ O id = .error .panicked := by
  have htransferable : get_transferable ⟨ReaderWrapper.Rtx f⟩ O = .error .panicked := by
    have hmem : kvL ∈ tableRange tL (min_script_tick_key O) (max_script_tick_key O) :=
      List.mem_filter.mpr ⟨hkvL, hinL⟩
    simp [get_transferable, ReaderWrapper.open_table, hfL, TableWrapper.range,
      collectDecoded_panicked decLogs _ kvL hmem hbadkvL, Except.map]
  refine ⟨?_, ?_, ?_, ?_, ?_, htransferable, ?_, ?_⟩
  · have hmem : kvB ∈ tableRange tB (min_script_tick_key O) (max_script_tick_key O) :=
      List.mem_filter.mpr ⟨hkvB, hinB⟩
    simp [get_balances, ReaderWrapper.open_table, hfB, TableWrapper.range,
      collectDecoded_panicked decBalance _ kvB hmem hbadkvB]
  · simp [get_balance, ReaderWrapper.open_table, hfB, TableWrapper.get, hgetB, hbadB]
  · simp [get_token_info, ReaderWrapper.open_table, hfT, TableWrapper.get,
      hgetT, hbadT]
  · simp [get_tokens_info, ReaderWrapper.open_table, hfT, TableWrapper.rangeAll,
      tableRangeAll, collectDecoded_panicked decTokenInfo tT kvT hkvT hbadkvT]
  · simp [get_transaction_receipts, ReaderWrapper.open_table, hfE,
      TableWrapper.get, hgetE, hbadE]
  · simp [get_transferable_by_tick, ReaderWrapper.open_table, hfL,
      TableWrapper.get, hgetL, hbadL]
  · simp [get_transferable_by_id, htransferable]

/-- Table contents holding one malformed value in each of the four ledger tables:
a one-byte balance, an empty token-info value, a receipts batch whose length
prefix disagrees with its payload, and a transferable-log batch whose length
prefix disagrees with its payload. -/
def badTables : Tables := fun n =>
  if n = BRC20_TOKEN then some [(hexBytes ([98, 98, 98, 98].map lowerByte), [])]
  else if n = BRC20_EVENTS then some [([100], [1, 2, 3])]
  else if n = BRC20_TRANSFERABLELOG then
    some [(script_tick_key [97] [97, 97, 97, 97], [0, 9])]
  else some [(script_tick_key [97] [97, 97, 97, 97], [7])]

/-- Witness for the amended C3: over `badTables`, every one of the eight decoding
queries ends in the panic outcome. -/
theorem c3_decode_failure_panics_amended_witness :
    get_balances ⟨.Rtx badTables⟩ [97] = .error .panicked ∧
    get_balance ⟨.Rtx badTables⟩ [97] [97, 97, 97, 97] = .error .panicked ∧
    get_token_info ⟨.Rtx badTables⟩ [98, 98, 98, 98] = .error .panicked ∧
    get_tokens_info ⟨.Rtx badTables⟩ = .error .panicked ∧
    get_transaction_receipts ⟨.Rtx badTables⟩ [100] = .error .panicked ∧
    get_transferable ⟨.Rtx badTables⟩ [97] = .error .panicked ∧
    get_transferable_by_tick ⟨.Rtx badTables⟩ [97] [97, 97, 97, 97] =
      .error .panicked ∧
    get_transferable_by_id ⟨.Rtx badTables⟩ [97] 5 = .error .panicked :=
  c3_decode_failure_panics_amended badTables
    [(script_tick_key [97] [97, 97, 97, 97], [7])]
    [(hexBytes ([98, 98, 98, 98].map lowerByte), [])]
    [([100], [1, 2, 3])]
    [(script_tick_key [97] [97, 97, 97, 97], [0, 9])]
    [97] [97, 97, 97, 97] [98, 98, 98, 98] [97, 97, 97, 97] [100] 5
    (script_tick_key [97] [97, 97, 97, 97], [7])
    (hexBytes ([98, 98, 98, 98].map lowerByte), [])
    (script_tick_key [97] [97, 97, 97, 97], [0, 9])
    [7] [] [1, 2, 3] [0, 9]
    (by decide) (by decide) (by decide) (by decide) (by decide) (by decide)
    (by decide) (by decide) (by decide) (by decide) (by decide) (by decide)
    (by decide) (by decide) (by decide) (by decide) (by decide) (by decide)
    (by decide) (by decide)

/-- C4 counterexample: `get_transferable_by_id` is not a scan of one
(owner, ticker) batch.  Owner `"a"` stores a batch only under ticker `"aaaa"`;
the batch for ticker `"bbbb"` is empty, yet the id lookup — which takes no ticker
argument — still returns the entry with inscription id 5 from the other ticker's
batch, where the claim predicts `None` for (owner, `"bbbb"`, 5). -/
theorem c4_counterexample_id_lookup_crosses_tickers :
    get_transferable_by_tick
      ⟨.Rtx fun _ => some [(script_tick_key [97] [97, 97, 97, 97], encLogs [⟨5, 10⟩])]⟩
      [97] [98, 98, 98, 98] = .ok [] ∧
    get_transferable_by_id
      ⟨.Rtx fun _ => some [(script_tick_key [97] [97, 97, 97, 97], encLogs [⟨5, 10⟩])]⟩
      [97] 5 = .ok (some ⟨5, 10⟩) := by
  exact ⟨rfl, rfl⟩

/-- C4 amended: `get_transferable_by_id` takes an owner and an inscription id
(no ticker), linearly scans the concatenation of all the owner's batches in key
order then in-batch order, and returns the first entry with a matching inscription
identifier — `none` when the owner's range holds no matching entry, the unique
match when exactly one entry has that id. -/
theorem c4_transferable_by_id_amended (f : Tables) (t : TableM) (O : List Nat)
    (id : Nat) (hf : f BRC20_TRANSFERABLELOG = some t)
    (hdec : ∀ kv ∈ t, (decLogs kv.2).isSome = true) :
    get_transferable_by_id ⟨.Rtx f⟩ O id =
      .ok ((((tableRange t (min_script_tick_key O) (max_script_tick_key O)).filterMap
        fun kv => decLogs kv.2).flatten).find? fun log => log.inscription_id == id) := by
  unfold get_transferable_by_id
  rw [get_transferable_ok f t O hf hdec]

/-- Witness for the amended C4 at a concrete two-batch table. -/
theorem c4_transferable_by_id_amended_witness :
    get_transferable_by_id
      ⟨.Rtx fun _ => some
        [(script_tick_key [97] [97, 97, 97, 97], encLogs [⟨5, 10⟩]),
         (script_tick_key [97] [97, 97, 97, 98], encLogs [⟨6, 20⟩])]⟩ [97] 6 =
      .ok (((( tableRange
          [(script_tick_key [97] [97, 97, 97, 97], encLogs [⟨5, 10⟩]),
           (script_tick_key [97] [97, 97, 97, 98], encLogs [⟨6, 20⟩])]
          (min_script_tick_key [97]) (max_script_tick_key [97])).filterMap
        fun kv => decLogs kv.2).flatten).find? fun log => log.inscription_id == 6) :=
  c4_transferable_by_id_amended _ _ [97] 6 rfl (by decide)

end BRC20Read
